import Mathlib

/-!
Verification of the HamCal event-aggregation pipeline (src/hamcal.py).

The source is shallowly embedded: Python strings become `List Char`,
timezone-aware UTC datetimes become `Int` seconds since the Unix epoch
(1970-01-01T00:00:00Z), `datetime.date` values become `Int` days since that
epoch, and `None`-able values become `Option`.  Python's `str.replace`,
`str.strip`, `str.upper` and the specific regular expressions used by the
source are modelled by explicit recursive functions on `List Char`.
-/

namespace HamCal

set_option maxRecDepth 16384

/-! ## Generic string helpers (models of Python string primitives) -/

/-- Model of Python `str.upper` (the source only ever uppercases ASCII). -/
def upperChars (s : List Char) : List Char := s.map Char.toUpper

/-- The characters removed by Python `str.strip()` (ASCII whitespace). -/
def pyIsSpace (c : Char) : Bool :=
  c = ' ' || c = '\t' || c = '\n' || c = '\r' || c = '\x0b' || c = '\x0c'

/-- Model of Python `str.strip()`: drop leading and trailing whitespace. -/
def pyStrip (s : List Char) : List Char :=
  ((s.dropWhile pyIsSpace).reverse.dropWhile pyIsSpace).reverse

/-- Worker for `replaceAll`, structurally recursive on a fuel that always
starts at the string's length (each step consumes at least one character, so
the fuel never runs out). -/
def replaceAllF (pat rep : List Char) : Nat → List Char → List Char
  | _, [] => []
  | 0, s => s
  | fuel + 1, c :: rest =>
    if pat ≠ [] ∧ pat.isPrefixOf (c :: rest) then
      rep ++ replaceAllF pat rep fuel ((c :: rest).drop pat.length)
    else
      c :: replaceAllF pat rep fuel rest

/-- Model of Python `str.replace pat rep` for a non-empty `pat`: replace all
non-overlapping occurrences, scanning left to right. -/
def replaceAll (pat rep s : List Char) : List Char :=
  replaceAllF pat rep s.length s

/-- Digits of a natural number (decimal), used to render numbers in output. -/
def natChars (n : Nat) : List Char := (toString n).data

/-- Left-pad a rendered number with zeros to a fixed width. -/
def padZeros (w : Nat) (n : Nat) : List Char :=
  List.replicate (w - (natChars n).length) '0' ++ natChars n

/-- Value of a list of decimal digit characters. -/
def digitsToNat (s : List Char) : Nat :=
  s.foldl (fun acc c => 10 * acc + (c.toNat - 48)) 0

/-! ## Calendar arithmetic

`dateToDays` and `civilFromDays` are the standard Gregorian civil-calendar
conversions (days counted from 1970-01-01); they model Python's
`datetime.date` / `datetime` arithmetic used by the source. -/

/-- Days since 1970-01-01 of the civil date `y-m-d` (valid for `y ≥ 1`). -/
def dateToDays (y m d : Nat) : Int :=
  let y' := if m ≤ 2 then y - 1 else y
  let era := y' / 400
  let yoe := y' % 400
  let mp := (m + 9) % 12
  let doy := (153 * mp + 2) / 5 + d - 1
  let doe := yoe * 365 + yoe / 4 - yoe / 100 + doy
  (era * 146097 + doe : Int) - 719468

/-- Inverse of `dateToDays`: the civil date of a day count. -/
def civilFromDays (z0 : Int) : Nat × Nat × Nat :=
  let z := z0 + 719468
  let era := z / 146097
  let doe := (z % 146097).toNat
  let yoe := (doe - doe / 1460 + doe / 36524 - doe / 146096) / 365
  let y0 : Int := era * 400 + yoe
  let doy := doe - (365 * yoe + yoe / 4 - yoe / 100)
  let mp := (5 * doy + 2) / 153
  let d := doy - (153 * mp + 2) / 5 + 1
  let m := if mp < 10 then mp + 3 else mp - 9
  ((if m ≤ 2 then y0 + 1 else y0).toNat, m, d)

/-- Python `date.weekday()` of a day count: Monday = 0 … Sunday = 6
(1970-01-01 was a Thursday, weekday 3). -/
def weekday (days : Int) : Int := (days + 3) % 7

/-- Model of `datetime.isoformat()` for a UTC instant (seconds since epoch):
`YYYY-MM-DDTHH:MM:SS+00:00`. -/
def isoformat_utc (t : Int) : List Char :=
  let days := t / 86400
  let sod := (t % 86400).toNat
  let ymd := civilFromDays days
  padZeros 4 ymd.1 ++ '-' :: padZeros 2 ymd.2.1 ++ '-' :: padZeros 2 ymd.2.2 ++
    'T' :: padZeros 2 (sod / 3600) ++ ':' :: padZeros 2 (sod / 60 % 60) ++
    ':' :: padZeros 2 (sod % 60) ++ ('+' :: ('0' :: ('0' :: (':' :: ['0', '0']))))

/-! ## The Event model -/

/-- The canonical event record.  The source's field `end` is a reserved word
in Lean and is called `stop` here. -/
structure Event where
  title : List Char
  start : Int
  stop : Int
  url : Option (List Char)
  description : Option (List Char)
  categories : List (List Char)
  source : List Char
deriving DecidableEq, Repr

/-- `Event.is_in_window`, with the process-wide `NOW_UTC` made an explicit
parameter `now`; `HORIZON_END_UTC = NOW_UTC + timedelta(days=62)`. -/
def is_in_window (now : Int) (e : Event) : Bool :=
  decide (e.stop > now) && decide (e.start < now + 62 * 86400)

/-- `Event.add_category`: append the label if it is not already present. -/
def add_category (e : Event) (c : List Char) : Event :=
  if c ∈ e.categories then e
  else ⟨e.title, e.start, e.stop, e.url, e.description, e.categories ++ [c], e.source⟩

/-! ## Classifier -/

def DIGITAL_KEYWORDS : List (List Char) :=
  ["RTTY".data, "FT8".data, "FT4".data, "PSK".data, "DIGI".data, "DIGITAL".data,
   "SSTV".data, "JS8".data, "MFSK".data]

def PHONE_KEYWORDS : List (List Char) := ["SSB".data, "PHONE".data, "AM".data, "FM".data]

def CW_KEYWORDS : List (List Char) := ["CW".data]

def FIELD_DAY_KEYWORDS : List (List Char) := ["FIELD DAY".data]

/-- The uppercased keyword blob `(e.title + " " + (e.description or "")).upper()`. -/
def kw_blob (title desc : List Char) : List Char := upperChars (title ++ ' ' :: desc)

/-- Does any keyword of the set occur as a substring of the blob?
(Python's `k in blob`.) -/
def kwMatch (kws : List (List Char)) (blob : List Char) : Bool :=
  kws.any fun k => decide (k <:+: blob)

/-- `tag_modes`: add the mode labels whose keyword set matches the blob. -/
def tag_modes (e : Event) : Event :=
  let blob := kw_blob e.title (e.description.getD [])
  let e1 := if kwMatch CW_KEYWORDS blob then add_category e ("cw".data) else e
  let e2 := if kwMatch PHONE_KEYWORDS blob then add_category e1 ("phone".data) else e1
  if kwMatch DIGITAL_KEYWORDS blob then add_category e2 ("digital".data) else e2

/-- `tag_field_day`: add the field-day label when its keyword matches. -/
def tag_field_day (e : Event) : Event :=
  let blob := kw_blob e.title (e.description.getD [])
  if kwMatch FIELD_DAY_KEYWORDS blob then add_category e ("field-day".data) else e

/-- The classification step applied by every parser: base labels are added
by the parser, then `tag_modes` and `tag_field_day` run in that order. -/
def classify (e : Event) : Event := tag_field_day (tag_modes e)

/-! ## Aggregator dedup (main, lines 654-659) -/

/-- The dedup key `(e.title, e.start.isoformat(), e.source)`. -/
def event_key (e : Event) : List Char × List Char × List Char :=
  (e.title, isoformat_utc e.start, e.source)

/-- Insert into an insertion-ordered mapping, overwriting the value in place
when the key is already present (Python `dict` assignment). -/
def upsert (k : List Char × List Char × List Char) (v : Event) :
    List ((List Char × List Char × List Char) × Event) →
    List ((List Char × List Char × List Char) × Event)
  | [] => [(k, v)]
  | (k', v') :: rest => if k' = k then (k, v) :: rest else (k', v') :: upsert k v rest

/-- The aggregator's dedup step: fold the events into the keyed mapping and
keep the surviving values. -/
def dedup (evs : List Event) : List Event :=
  (evs.foldl (fun m e => upsert (event_key e) e m) []).map Prod.snd

/-! ## Field Day rule (add_field_day_fixed) -/

/-- Worker for the `while d.weekday() != 5` loop in
`fourth_full_weekend_saturday_of_june`: advance one day until a Saturday.
The fuel starts at 7 and never runs out, because one of any seven
consecutive days is a Saturday (proved below). -/
def firstSatFrom : Nat → Int → Int
  | 0, d => d
  | fuel + 1, d => if weekday d = 5 then d else firstSatFrom fuel (d + 1)

/-- `fourth_full_weekend_saturday_of_june`: first Saturday of June of the
year, plus three weeks (as a day count). -/
def fourth_full_weekend_saturday_of_june (year : Nat) : Int :=
  firstSatFrom 7 (dateToDays year 6 1) + 21

/-- The Field Day event `add_field_day_fixed` builds for one year: starts at
UTC midnight of the computed Saturday, ends two days later. -/
def field_day_event (yr : Nat) : Event :=
  tag_field_day (add_category
    ⟨"ARRL Field Day".data,
     fourth_full_weekend_saturday_of_june yr * 86400,
     fourth_full_weekend_saturday_of_june yr * 86400 + 2 * 86400,
     some ("https://www.arrl.org/field-day".data),
     some ("Computed as the 4th full weekend of June (Sat-Sun).".data),
     [], "arrl-field-day".data⟩ ("field-day".data))

/-- `add_field_day_fixed`: the Field Day events of the current and the next
year that fall inside the window. -/
def add_field_day_fixed (now : Int) (nowYear : Nat) : List Event :=
  [nowYear, nowYear + 1].filterMap fun yr =>
    let e := field_day_event yr
    if is_in_window now e then some e else none

/-! ## ICS text escaping (ics_escape, unfold_ics_text) -/

/-- `ics_escape`: backslash, newline, comma, semicolon — in that order. -/
def ics_escape (text : List Char) : List Char :=
  replaceAll [';'] ['\\', ';']
    (replaceAll [','] ['\\', ',']
      (replaceAll ['\n'] ['\\', 'n']
        (replaceAll ['\\'] ['\\', '\\'] text)))

/-- `unfold_ics_text` on a present value: undo the escapes (in the source's
order: `\n`, `\,`, `\;`, then `\\`) and strip the result. -/
def unfold_ics_text (value : List Char) : List Char :=
  pyStrip
    (replaceAll ['\\', '\\'] ['\\']
      (replaceAll ['\\', ';'] [';']
        (replaceAll ['\\', ','] [',']
          (replaceAll ['\\', 'n'] ['\n'] value))))

/-- Per-character view of `ics_escape` (used to reason about it). -/
def escChar (c : Char) : List Char :=
  if c = '\\' then ['\\', '\\']
  else if c = '\n' then ['\\', 'n']
  else if c = ',' then ['\\', ',']
  else if c = ';' then ['\\', ';']
  else [c]

/-- Intermediate per-character view after undoing the `\n` escape. -/
def escCharA (c : Char) : List Char :=
  if c = ',' then ['\\', ','] else if c = ';' then ['\\', ';'] else [c]

/-- Intermediate per-character view after also undoing the `\,` escape. -/
def escCharB (c : Char) : List Char :=
  if c = ';' then ['\\', ';'] else [c]

/-! ## Duration formatting (fmt_duration) -/

/-- `fmt_duration`: human-readable duration between two UTC instants. -/
def fmt_duration (start_utc end_utc : Int) : List Char :=
  let total_seconds := end_utc - start_utc
  if total_seconds ≤ 0 then "0m".data
  else
    let mins0 := total_seconds.toNat / 60
    let days := mins0 / (60 * 24)
    let mins1 := mins0 % (60 * 24)
    let hours := mins1 / 60
    let mins := mins1 % 60
    let parts := (if days ≠ 0 then [natChars days ++ ['d']] else []) ++
                 (if hours ≠ 0 then [natChars hours ++ ['h']] else [])
    let parts := parts ++
      (if mins ≠ 0 ∨ parts = [] then [natChars mins ++ ['m']] else [])
    List.intercalate [' '] parts

/-- Duration rendering as the spec words it: non-positive span → `0m`;
otherwise decompose the whole minutes into days (1440 min), hours (60 min)
and minutes, omit zero-valued higher units, and show the minutes exactly
when they are non-zero or no larger unit is shown. -/
def fmt_duration_spec (total_seconds : Int) : List Char :=
  if total_seconds ≤ 0 then "0m".data
  else
    let M := total_seconds.toNat / 60
    let d := M / 1440
    let h := M / 60 % 24
    let m := M % 60
    List.intercalate [' ']
      ((if d ≠ 0 then [natChars d ++ ['d']] else []) ++
       (if h ≠ 0 then [natChars h ++ ['h']] else []) ++
       (if m ≠ 0 ∨ (d = 0 ∧ h = 0) then [natChars m ++ ['m']] else []))

/-! ## ICS field extraction and the WA7BNM block parser -/

/-- Worker for `unfold_ics` (regex `\r?\n[ \t]` removed, scanning left to
right); fuel starts at the string length. -/
def unfold_icsF : Nat → List Char → List Char
  | 0, s => s
  | _, [] => []
  | fuel + 1, '\r' :: '\n' :: c :: rest =>
    if c = ' ' ∨ c = '\t' then unfold_icsF fuel rest
    else '\r' :: unfold_icsF fuel ('\n' :: c :: rest)
  | fuel + 1, '\n' :: c :: rest =>
    if c = ' ' ∨ c = '\t' then unfold_icsF fuel rest
    else '\n' :: unfold_icsF fuel (c :: rest)
  | fuel + 1, c :: rest => c :: unfold_icsF fuel rest

/-- `unfold_ics`: undo physical line folding (a line break followed by a
space or tab is removed together with that one whitespace character). -/
def unfold_ics (s : List Char) : List Char := unfold_icsF s.length s

/-- Match of one logical line against `^{field_name}(;[^:]*)?:(.*)$`:
the field name at line start, an optional `;`-parameter part without colons,
a colon, then the value (the rest of the line). -/
def match_field_line (field_name line : List Char) : Option (List Char) :=
  if field_name.isPrefixOf line then
    match line.drop field_name.length with
    | ':' :: v => some v
    | ';' :: r2 =>
      match r2.dropWhile (fun c => c ≠ ':') with
      | ':' :: v => some v
      | _ => none
    | _ => none
  else none

/-- `extract_ics_field`: unfold the block, then return the stripped value of
the first line matching the field pattern (Python `re.search` with
`re.MULTILINE`), or `none`. -/
def extract_ics_field (vevent field_name : List Char) : Option (List Char) :=
  (((unfold_ics vevent).splitOn '\n').findSome?
    fun line => match_field_line field_name line).map pyStrip

/-- Days in a civil month (used to model `strptime`'s date validation). -/
def daysInMonth (y m : Nat) : Nat :=
  if m = 2 then (if (y % 4 = 0 ∧ y % 100 ≠ 0) ∨ y % 400 = 0 then 29 else 28)
  else if m = 4 ∨ m = 6 ∨ m = 9 ∨ m = 11 then 30 else 31

/-- Model of `parse_google_ics_datetime` as seconds since the epoch.  The
8-digit date branch follows the source exactly (`strptime "%Y%m%d"`, UTC
midnight).  The general branch delegates to `dateutil.parser.parse`, an
external collaborator; it is modelled here for the basic combined formats
`YYYYMMDDTHHMMSS` and `YYYYMMDDTHHMMSSZ` of the Google-calendar feed
(naive values default to UTC), and `none` — a raised exception — elsewhere. -/
def parse_google_ics_datetime (value : List Char) : Option Int :=
  let v := pyStrip value
  if v.length = 8 ∧ v.all Char.isDigit then
    let y := digitsToNat (v.take 4)
    let m := digitsToNat ((v.drop 4).take 2)
    let d := digitsToNat ((v.drop 6).take 2)
    if 1 ≤ m ∧ m ≤ 12 ∧ 1 ≤ d ∧ d ≤ daysInMonth y m then
      some (dateToDays y m d * 86400)
    else none
  else
    let core := if v.length = 16 ∧ v.getLast? = some 'Z' then v.take 15 else v
    if core.length = 15 ∧ (core.take 8).all Char.isDigit ∧
        (core.drop 8).take 1 = ['T'] ∧ (core.drop 9).all Char.isDigit then
      let y := digitsToNat (core.take 4)
      let m := digitsToNat ((core.drop 4).take 2)
      let d := digitsToNat ((core.drop 6).take 2)
      let hh := digitsToNat ((core.drop 9).take 2)
      let mi := digitsToNat ((core.drop 11).take 2)
      let ss := digitsToNat ((core.drop 13).take 2)
      if 1 ≤ m ∧ m ≤ 12 ∧ 1 ≤ d ∧ d ≤ daysInMonth y m ∧ hh ≤ 23 ∧ mi ≤ 59 ∧ ss ≤ 59 then
        some (dateToDays y m d * 86400 + hh * 3600 + mi * 60 + ss)
      else none
    else none

/-- One iteration of the `ingest_wa7bnm_gcal` block loop as a pure function
of the block text `b` (the piece following a `BEGIN:VEVENT` split marker).
`.ok none` models `continue` (no event built), `.error ()` models a raised
exception escaping from datetime parsing; the window filter applied
afterwards by the loop is `is_in_window`. -/
def processBlock (b : List Char) : Except Unit (Option Event) :=
  let vevent := "BEGIN:VEVENT".data ++ b
  let dtstart := extract_ics_field vevent ("DTSTART".data)
  let dtend := extract_ics_field vevent ("DTEND".data)
  let summary := match extract_ics_field vevent ("SUMMARY".data) with
    | some (c :: cs) => c :: cs
    | _ => "Contest".data
  let url := extract_ics_field vevent ("URL".data)
  let desc := extract_ics_field vevent ("DESCRIPTION".data)
  match dtstart with
  | none => .ok none
  | some [] => .ok none
  | some (d0 :: ds) =>
    match parse_google_ics_datetime (d0 :: ds) with
    | none => .error ()
    | some start =>
      match (match dtend with
        | none => some (start + 3600)
        | some [] => some (start + 3600)
        | some (e0 :: es) => parse_google_ics_datetime (e0 :: es)) with
      | none => .error ()
      | some stop =>
        .ok (some (classify (add_category
          ⟨unfold_ics_text summary, start, stop,
           (match url with | some (c :: cs) => some (unfold_ics_text (c :: cs)) | _ => none),
           (match desc with | some (c :: cs) => some (unfold_ics_text (c :: cs)) | _ => none),
           [], "wa7bnm-gcal".data⟩ ("contest".data))))

/-! ## Calendar encoder (build_ics) -/

/-- `dt_to_ics`: format a UTC instant as `YYYYMMDDTHHMMSSZ`. -/
def dt_to_ics (t : Int) : List Char :=
  let days := t / 86400
  let sod := (t % 86400).toNat
  let ymd := civilFromDays days
  padZeros 4 ymd.1 ++ padZeros 2 ymd.2.1 ++ padZeros 2 ymd.2.2 ++
    'T' :: (padZeros 2 (sod / 3600) ++ padZeros 2 (sod / 60 % 60) ++
      padZeros 2 (sod % 60) ++ ['Z'])

/-- Stable insertion of an event into a list sorted by start instant
(placing it before later-listed events with an equal start). -/
def insertByStart (e : Event) : List Event → List Event
  | [] => [e]
  | f :: fs => if f.start < e.start then f :: insertByStart e fs else e :: f :: fs

/-- Model of Python's stable `sorted(events, key=lambda e: e.start)`. -/
def sortByStart : List Event → List Event
  | [] => []
  | e :: es => insertByStart e (sortByStart es)

/-- The lines one event contributes to `build_ics`.  `uid` abstracts the
SHA-256 fingerprint `Event.uid` (an external hash collaborator); `now` is
the process-wide `NOW_UTC` stamped into `DTSTAMP`. -/
def event_lines (now : Int) (uid : Event → List Char) (e : Event) : List (List Char) :=
  let desc0 := pyStrip (e.description.getD [])
  let desc_out := match e.url with
    | some (u0 :: us) =>
      if (u0 :: us) <:+: desc0 then desc0
      else if desc0 = [] then "Rules & details:\n".data ++ (u0 :: us)
      else desc0 ++ "\n\n".data ++ "Rules & details:\n".data ++ (u0 :: us)
    | _ => desc0
  ["BEGIN:VEVENT".data,
   "UID:".data ++ uid e,
   "DTSTAMP:".data ++ dt_to_ics now,
   "DTSTART:".data ++ dt_to_ics e.start,
   "DTEND:".data ++ dt_to_ics e.stop,
   "SUMMARY:".data ++ ics_escape e.title] ++
  (match e.url with
   | some (u0 :: us) => ["URL:".data ++ ics_escape (u0 :: us)]
   | _ => []) ++
  (if desc_out ≠ [] then ["DESCRIPTION:".data ++ ics_escape desc_out] else []) ++
  (if e.categories ≠ [] then
     ["CATEGORIES:".data ++ ics_escape (List.intercalate [','] e.categories)] else []) ++
  ["END:VEVENT".data]

/-- `build_ics`: fixed header, events sorted by start, all lines joined with
CRLF and a final CRLF appended.  (The source never appends an
`END:VCALENDAR` line.) -/
def build_ics (now : Int) (uid : Event → List Char)
    (calendar_name : List Char) (events : List Event) : List Char :=
  let header := ["BEGIN:VCALENDAR".data, "VERSION:2.0".data,
    "PRODID:-//HAMCAL//hamcal//EN".data, "CALSCALE:GREGORIAN".data,
    "X-WR-CALNAME:".data ++ ics_escape calendar_name, "X-WR-TIMEZONE:UTC".data]
  List.intercalate ("\r\n".data)
    (header ++ (sortByStart events).flatMap (event_lines now uid)) ++ "\r\n".data

/-! ## Markup stripping (strip_html) -/

/-- Case-insensitive prefix test, for the `(?i)` pattern of `strip_html`. -/
def ciStarts : List Char → List Char → Bool
  | [], _ => true
  | _ :: _, [] => false
  | p :: ps, c :: cs => (p.toLower = c.toLower) && ciStarts ps cs

/-- The suffix after the first case-insensitive occurrence of `pat`, or
`none` when `pat` does not occur. -/
def dropThroughCI (pat : List Char) : List Char → Option (List Char)
  | [] => if pat = [] then some [] else none
  | c :: rest =>
    if ciStarts pat (c :: rest) then some ((c :: rest).drop pat.length)
    else dropThroughCI pat rest

/-- First substitution of `strip_html`: the raw-string pattern
`(?is)<(script|style).*?>.*?</\\1>`.  Inside a raw string the doubled
backslash denotes a literal backslash, so the trailer is the five literal
characters `<`, `/`, `\`, `1`, `>` — not a backreference — and a match
requires that literal sequence to occur after the opening tag. -/
def sub_script_styleF : Nat → List Char → List Char
  | 0, s => s
  | _, [] => []
  | fuel + 1, c :: rest =>
    if ciStarts ("<script".data) (c :: rest) ∨ ciStarts ("<style".data) (c :: rest) then
      let afterOpen := if ciStarts ("<script".data) (c :: rest) then (c :: rest).drop 7
        else (c :: rest).drop 6
      match dropThroughCI ['>'] afterOpen with
      | none => c :: sub_script_styleF fuel rest
      | some afterGt =>
        match dropThroughCI ("</\\1>".data) afterGt with
        | none => c :: sub_script_styleF fuel rest
        | some afterClose => sub_script_styleF fuel afterClose
    else c :: sub_script_styleF fuel rest

def sub_script_style (s : List Char) : List Char := sub_script_styleF s.length s

/-- Second substitution: the raw-string pattern `(?s)<br\\s*/?>` — again the
doubled backslash is a literal backslash and the `s*` a run of the letter
`s`, so a match is `<br` + `\` + `s`-run + optional `/` + `>`; the
replacement `"\\n"` is processed by `re.sub` into a newline character. -/
def sub_brF : Nat → List Char → List Char
  | 0, s => s
  | _, [] => []
  | fuel + 1, c :: rest =>
    if ("<br\\".data).isPrefixOf (c :: rest) then
      match ((c :: rest).drop 4).dropWhile (fun x => x = 's') with
      | '/' :: '>' :: t => '\n' :: sub_brF fuel t
      | '>' :: t => '\n' :: sub_brF fuel t
      | _ => c :: sub_brF fuel rest
    else c :: sub_brF fuel rest

def sub_br (s : List Char) : List Char := sub_brF s.length s

/-- Fourth substitution: `(?s)<.*?>` removed — from each `<` that is
followed by a later `>`, delete through the nearest such `>`. -/
def sub_tagsF : Nat → List Char → List Char
  | 0, s => s
  | _, [] => []
  | fuel + 1, c :: rest =>
    if c = '<' ∧ '>' ∈ rest then
      sub_tagsF fuel ((rest.dropWhile (fun x => x ≠ '>')).drop 1)
    else c :: sub_tagsF fuel rest

def sub_tags (s : List Char) : List Char := sub_tagsF s.length s

/-- Partial model of Python's `html.unescape` (an external stdlib
collaborator): decodes the four predefined named entities and leaves other
text unchanged; faithful on text whose entities are among these (and in
particular the identity on text containing no ampersand). -/
def html_unescape (s : List Char) : List Char :=
  replaceAll ("&amp;".data) ['&']
    (replaceAll ("&quot;".data) ['"']
      (replaceAll ("&gt;".data) ['>']
        (replaceAll ("&lt;".data) ['<'] s)))

/-- `strip_html`: the four regex substitutions followed by entity decoding,
in source order. -/
def strip_html (h : List Char) : List Char :=
  html_unescape (sub_tags (replaceAll ("</p>".data) ['\n'] (sub_br (sub_script_style h))))

/-! ## Theorems -/

theorem replaceAllF_nil (pat rep : List Char) (fuel : Nat) :
    replaceAllF pat rep fuel [] = [] := by
  cases fuel <;> rfl

theorem replaceAllF_single (a : Char) (rep : List Char) (fuel : Nat) (s : List Char)
    (h : s.length ≤ fuel) :
    replaceAllF [a] rep fuel s = s.flatMap fun c => if c = a then rep else [c] := by
  induction fuel generalizing s with
  | zero =>
    have hs : s = [] := by cases s <;> simp_all
    subst hs; rfl
  | succ n ih =>
    cases s with
    | nil => rfl
    | cons c rest =>
      by_cases hca : a = c
      · subst hca
        simp [replaceAllF, List.isPrefixOf, ih rest (by simpa using h)]
      · simp [replaceAllF, List.isPrefixOf, Ne.symm hca, hca,
          ih rest (by simp at h; omega)]

theorem replaceAll_single (a : Char) (rep : List Char) (s : List Char) :
    replaceAll [a] rep s = s.flatMap fun c => if c = a then rep else [c] :=
  replaceAllF_single a rep s.length s le_rfl

theorem replaceAllF_cons_match (pat rep : List Char) (fuel : Nat) (s : List Char)
    (c : Char) (h : pat.isPrefixOf (c :: s) = true) (hne : pat ≠ []) :
    replaceAllF pat rep (fuel + 1) (c :: s) =
      rep ++ replaceAllF pat rep fuel ((c :: s).drop pat.length) := by
  simp [replaceAllF, h, hne]

theorem replaceAllF_cons_skip (pat rep : List Char) (fuel : Nat) (s : List Char)
    (c : Char) (h : pat.isPrefixOf (c :: s) = false) :
    replaceAllF pat rep (fuel + 1) (c :: s) = c :: replaceAllF pat rep fuel s := by
  simp [replaceAllF, h]

theorem replaceAllF_escape_pass (x : Char) (rep : List Char) (f g : Char → List Char)
    (s : List Char)
    (hcase : ∀ c ∈ s, (f c = ['\\', x] ∧ g c = rep) ∨
        (∃ y, f c = ['\\', y] ∧ y ≠ x ∧ y ≠ '\\' ∧ g c = ['\\', y]) ∨
        (∃ d, f c = [d] ∧ d ≠ '\\' ∧ g c = [d])) :
    ∀ fuel : Nat, (s.flatMap f).length ≤ fuel →
      replaceAllF ['\\', x] rep fuel (s.flatMap f) = s.flatMap g := by
  induction s with
  | nil => intro fuel _; rw [List.flatMap_nil, List.flatMap_nil, replaceAllF_nil]
  | cons c rest ih =>
    intro fuel hfuel
    have ihr := ih fun c' hc' => hcase c' (List.mem_cons_of_mem c hc')
    rw [List.flatMap_cons] at hfuel ⊢
    rw [List.flatMap_cons]
    rcases hcase c (List.mem_cons_self c rest) with ⟨hfc, hgc⟩ |
      ⟨y, hfc, hyx, hyb, hgc⟩ | ⟨d, hfc, hdb, hgc⟩
    · rw [hfc] at hfuel ⊢
      rw [hgc]
      cases fuel with
      | zero => simp at hfuel
      | succ fl =>
        rw [List.cons_append, List.cons_append, List.nil_append,
          replaceAllF_cons_match _ _ _ _ _ (by simp [List.isPrefixOf]) (by simp)]
        congr 1
        have hlen : (rest.flatMap f).length ≤ fl := by
          rw [List.length_append] at hfuel
          simp only [List.length_cons, List.length_nil] at hfuel
          omega
        simpa using ihr fl hlen
    · rw [hfc] at hfuel ⊢
      rw [hgc]
      have hxy : (x == y) = false := by simp; exact fun h => hyx h.symm
      have hby : ('\\' == y) = false := by simp; exact fun h => hyb h.symm
      cases fuel with
      | zero => simp at hfuel
      | succ fl =>
        rw [List.cons_append, List.cons_append, List.nil_append,
          replaceAllF_cons_skip _ _ _ _ _ (by simp [List.isPrefixOf, hxy])]
        cases fl with
        | zero => simp at hfuel
        | succ fl2 =>
          rw [replaceAllF_cons_skip _ _ _ _ _ (by simp [List.isPrefixOf, hby])]
          have hlen : (rest.flatMap f).length ≤ fl2 := by
            rw [List.length_append] at hfuel
            simp only [List.length_cons, List.length_nil] at hfuel
            omega
          simp [ihr fl2 hlen]
    · rw [hfc] at hfuel ⊢
      rw [hgc]
      have hbd : ('\\' == d) = false := by simp; exact fun h => hdb h.symm
      cases fuel with
      | zero => simp at hfuel
      | succ fl =>
        rw [List.cons_append, List.nil_append,
          replaceAllF_cons_skip _ _ _ _ _ (by simp [List.isPrefixOf, hbd])]
        have hlen : (rest.flatMap f).length ≤ fl := by
          rw [List.length_append] at hfuel
          simp only [List.length_cons, List.length_nil] at hfuel
          omega
        simp [ihr fl hlen]

theorem replaceAllF_head_not_mem (a : Char) (p rep : List Char) (s : List Char)
    (h : a ∉ s) : ∀ fuel : Nat, replaceAllF (a :: p) rep fuel s = s := by
  induction s with
  | nil => intro fuel; exact replaceAllF_nil _ _ _
  | cons c rest ih =>
    intro fuel
    have hca : (a == c) = false := by
      simp
      exact fun he => h (he ▸ List.mem_cons_self c rest)
    cases fuel with
    | zero => rfl
    | succ fl =>
      rw [replaceAllF_cons_skip _ _ _ _ _ (by simp [List.isPrefixOf, hca])]
      rw [ih (fun hm => h (List.mem_cons_of_mem c hm)) fl]

theorem escChar_flatMap (s : List Char) : ics_escape s = s.flatMap escChar := by
  unfold ics_escape
  rw [replaceAll_single, replaceAll_single, replaceAll_single, replaceAll_single,
    List.flatMap_assoc, List.flatMap_assoc, List.flatMap_assoc]
  congr 1
  funext c
  by_cases h1 : c = '\\'
  · subst h1; rfl
  by_cases h2 : c = '\n'
  · subst h2; rfl
  by_cases h3 : c = ','
  · subst h3; rfl
  by_cases h4 : c = ';'
  · subst h4; rfl
  simp [escChar, h1, h2, h3, h4]

theorem unfold_ics_text_escape (s : List Char) (hb : '\\' ∉ s) :
    unfold_ics_text (ics_escape s) = pyStrip s := by
  unfold unfold_ics_text
  rw [escChar_flatMap]
  have p1 : replaceAll ['\\', 'n'] ['\n'] (s.flatMap escChar) = s.flatMap escCharA := by
    unfold replaceAll
    refine replaceAllF_escape_pass 'n' ['\n'] escChar escCharA s ?_ _ le_rfl
    intro c hc
    have hcb : c ≠ '\\' := fun he => hb (he ▸ hc)
    by_cases h2 : c = '\n'
    · subst h2; exact Or.inl ⟨by decide, by decide⟩
    by_cases h3 : c = ','
    · subst h3; exact Or.inr (Or.inl ⟨',', by decide, by decide, by decide, by decide⟩)
    by_cases h4 : c = ';'
    · subst h4; exact Or.inr (Or.inl ⟨';', by decide, by decide, by decide, by decide⟩)
    · exact Or.inr (Or.inr ⟨c, by simp [escChar, hcb, h2, h3, h4],
        hcb, by simp [escCharA, h3, h4]⟩)
  rw [p1]
  have p2 : replaceAll ['\\', ','] [','] (s.flatMap escCharA) = s.flatMap escCharB := by
    unfold replaceAll
    refine replaceAllF_escape_pass ',' [','] escCharA escCharB s ?_ _ le_rfl
    intro c hc
    have hcb : c ≠ '\\' := fun he => hb (he ▸ hc)
    by_cases h3 : c = ','
    · subst h3; exact Or.inl ⟨by decide, by decide⟩
    by_cases h4 : c = ';'
    · subst h4; exact Or.inr (Or.inl ⟨';', by decide, by decide, by decide, by decide⟩)
    · exact Or.inr (Or.inr ⟨c, by simp [escCharA, h3, h4], hcb,
        by simp [escCharB, h4]⟩)
  rw [p2]
  have p3 : replaceAll ['\\', ';'] [';'] (s.flatMap escCharB) = s := by
    unfold replaceAll
    have := replaceAllF_escape_pass ';' [';'] escCharB (fun c => [c]) s ?_
      (s.flatMap escCharB).length le_rfl
    · rw [this]; simp
    intro c hc
    have hcb : c ≠ '\\' := fun he => hb (he ▸ hc)
    by_cases h4 : c = ';'
    · subst h4; exact Or.inl ⟨by decide, by decide⟩
    · exact Or.inr (Or.inr ⟨c, by simp [escCharB, h4], hcb, rfl⟩)
  rw [p3]
  rw [show replaceAll ['\\', '\\'] ['\\'] s = s from
    replaceAllF_head_not_mem '\\' ['\\'] ['\\'] s hb s.length]

/-- C4 (corrected): the text unescaping is *not* a left inverse of the text
escaping for every string — it fails on strings containing a backslash
(`unfold_ics_text` undoes `\n` before `\\`) and on strings with leading or
trailing whitespace (the final `strip()`). -/
theorem c4_escape_roundtrip_counterexample :
    unfold_ics_text (ics_escape ['\\', 'n']) ≠ ['\\', 'n'] ∧
    unfold_ics_text (ics_escape [' ', 'a']) ≠ [' ', 'a'] := by decide

/-- C4 (amended): for a string with no backslash, decoding inverts encoding
up to Python `strip()`; hence the unescaping function is a left inverse of
the escaping function on backslash-free strings that equal their own strip,
and the title/link/category strings of an event survive the encode/decode
round trip exactly when they are of that clean form. -/
theorem c4_escape_unescape_amended (s : List Char) (hb : '\\' ∉ s) :
    unfold_ics_text (ics_escape s) = pyStrip s ∧
    (pyStrip s = s → unfold_ics_text (ics_escape s) = s) ∧
    ((extract_ics_field
        (build_ics 0 (fun _ => "u0".data) ("Cal".data)
          [⟨"Ham, Contest".data, 60, 3720, some ("http://x".data),
            some ("hi".data), ["contest".data, "cw".data], "src".data⟩])
        ("SUMMARY".data)).map unfold_ics_text = some ("Ham, Contest".data) ∧
     (extract_ics_field
        (build_ics 0 (fun _ => "u0".data) ("Cal".data)
          [⟨"Ham, Contest".data, 60, 3720, some ("http://x".data),
            some ("hi".data), ["contest".data, "cw".data], "src".data⟩])
        ("URL".data)).map unfold_ics_text = some ("http://x".data) ∧
     (extract_ics_field
        (build_ics 0 (fun _ => "u0".data) ("Cal".data)
          [⟨"Ham, Contest".data, 60, 3720, some ("http://x".data),
            some ("hi".data), ["contest".data, "cw".data], "src".data⟩])
        ("CATEGORIES".data)).map unfold_ics_text = some ("contest,cw".data)) := by
  refine ⟨unfold_ics_text_escape s hb, fun h => ?_, by decide, by decide, by decide⟩
  rw [unfold_ics_text_escape s hb, h]

/-- C4 witness: a clean string with a comma, a semicolon and a newline
survives the escape/unescape round trip unchanged. -/
theorem c4_escape_unescape_amended_witness :
    unfold_ics_text (ics_escape ("a,b;c\nd".data)) = "a,b;c\nd".data :=
  (c4_escape_unescape_amended ("a,b;c\nd".data) (by decide)).2.1 (by decide)

/-- C7: duration formatting agrees with the spec's decomposition rule
(non-positive span → "0m"; days/hours/minutes with zero-valued higher units
omitted and minutes shown whenever no larger unit is), and renders the
spec's examples: 125 minutes → "2h 5m", 1500 minutes → "1d 1h". -/
theorem c7_duration_formatting (s e : Int) :
    fmt_duration s e = fmt_duration_spec (e - s) ∧
    (e - s ≤ 0 → fmt_duration s e = "0m".data) ∧
    fmt_duration 0 7500 = "2h 5m".data ∧
    fmt_duration 0 90000 = "1d 1h".data := by
  refine ⟨?_, fun h => ?_, by decide, by decide⟩
  · dsimp only [fmt_duration, fmt_duration_spec]
    have h0 : (60 * 24 : Nat) = 1440 := by norm_num
    rw [h0]
    by_cases h : e - s ≤ 0
    · rw [if_pos h, if_pos h]
    · rw [if_neg h, if_neg h]
      have h1 : (e - s).toNat / 60 % 1440 / 60 = (e - s).toNat / 60 / 60 % 24 := by
        omega
      have h2 : (e - s).toNat / 60 % 1440 % 60 = (e - s).toNat / 60 % 60 := by
        omega
      rw [h1, h2]
      have hiff : ∀ (u v : List Char) (P Q : Prop) (_ : Decidable P) (_ : Decidable Q),
          (((if P then [u] else []) ++ (if Q then [v] else [])) = ([] : List (List Char)))
            ↔ (¬ P ∧ ¬ Q) := by
        intro u v P Q _ _
        by_cases hP : P <;> by_cases hQ : Q <;> simp [hP, hQ]
      simp only [hiff, not_ne_iff]
  · dsimp only [fmt_duration]
    rw [if_pos h]

/-- C7 witness: a zero span renders as "0m", 125 minutes as "2h 5m". -/
theorem c7_duration_formatting_witness :
    fmt_duration 5 5 = "0m".data ∧ fmt_duration 0 7500 = "2h 5m".data :=
  ⟨(c7_duration_formatting 5 5).2.1 (by decide), (c7_duration_formatting 0 7500).2.2.1⟩

/-- C10: a span that is strictly positive but under one minute formats as
"0m" — sub-minute spans are truncated to zero minutes. -/
theorem c10_subminute_span_zero (s e : Int) (h1 : 0 < e - s) (h2 : e - s < 60) :
    fmt_duration s e = "0m".data := by
  dsimp only [fmt_duration]
  rw [if_neg (by omega)]
  have h3 : (e - s).toNat / 60 = 0 := by omega
  rw [h3]
  rfl

/-- C10 witness: a 30-second span formats as "0m". -/
theorem c10_subminute_span_zero_witness : fmt_duration 0 30 = "0m".data :=
  c10_subminute_span_zero 0 30 (by decide) (by decide)

theorem infix_append_left' {k A : List Char} (B : List Char) (h : k <:+: A) :
    k <:+: A ++ B := h.trans ⟨[], B, by simp⟩

theorem infix_append_right' {k B : List Char} (A : List Char) (h : k <:+: B) :
    k <:+: A ++ B := h.trans ⟨A, [], by simp⟩

theorem infix_append_cons_split {k A B : List Char} {c : Char} (hc : c ∉ k)
    (h : k <:+: A ++ c :: B) : k <:+: A ∨ k <:+: B := by
  induction A with
  | nil =>
    rw [List.nil_append] at h
    rcases List.infix_cons_iff.mp h with hpre | hinf
    · cases k with
      | nil => exact Or.inl (List.nil_infix)
      | cons k0 ks =>
        have hk0 : k0 = c := (List.cons_prefix_cons.mp hpre).1
        exact absurd (hk0 ▸ List.mem_cons_self k0 ks) hc
    · exact Or.inr hinf
  | cons a A' ih =>
    rw [List.cons_append] at h
    rcases List.infix_cons_iff.mp h with hpre | hinf
    · by_cases hlen : k.length ≤ (a :: A').length
      · left
        have hAw : a :: A' <+: a :: (A' ++ c :: B) := by
          rw [← List.cons_append]; exact List.prefix_append _ _
        exact (List.prefix_of_prefix_length_le hpre hAw hlen).isInfix
      · exfalso
        have hw : (a :: A') ++ [c] <+: a :: (A' ++ c :: B) := by
          rw [← List.cons_append]
          exact ⟨B, by simp⟩
        have hck : (a :: A') ++ [c] <+: k := by
          refine List.prefix_of_prefix_length_le hw hpre ?_
          simp at hlen ⊢
          omega
        exact hc (hck.subset (by simp))
    · rcases ih hinf with h1 | h2
      · exact Or.inl (List.infix_cons h1)
      · exact Or.inr h2

theorem add_category_title (e : Event) (c : List Char) :
    (add_category e c).title = e.title := by
  unfold add_category; split <;> rfl

theorem add_category_description (e : Event) (c : List Char) :
    (add_category e c).description = e.description := by
  unfold add_category; split <;> rfl

theorem mem_add_category (e : Event) (c x : List Char) :
    x ∈ (add_category e c).categories ↔ x ∈ e.categories ∨ x = c := by
  unfold add_category
  split
  · next h => simp; exact fun hx => hx ▸ h
  · simp

theorem tag_modes_title (e : Event) : (tag_modes e).title = e.title := by
  dsimp only [tag_modes]
  split <;> split <;> split <;> simp [add_category_title]

theorem tag_modes_description (e : Event) :
    (tag_modes e).description = e.description := by
  dsimp only [tag_modes]
  split <;> split <;> split <;> simp [add_category_description]

theorem mem_tag_modes (e : Event) (c : List Char) :
    c ∈ (tag_modes e).categories ↔ c ∈ e.categories ∨
      (c = "cw".data ∧ kwMatch CW_KEYWORDS (kw_blob e.title (e.description.getD []))) ∨
      (c = "phone".data ∧ kwMatch PHONE_KEYWORDS (kw_blob e.title (e.description.getD []))) ∨
      (c = "digital".data ∧ kwMatch DIGITAL_KEYWORDS (kw_blob e.title (e.description.getD []))) := by
  dsimp only [tag_modes]
  by_cases h1 : kwMatch CW_KEYWORDS (kw_blob e.title (e.description.getD [])) <;>
    by_cases h2 : kwMatch PHONE_KEYWORDS (kw_blob e.title (e.description.getD [])) <;>
      by_cases h3 : kwMatch DIGITAL_KEYWORDS (kw_blob e.title (e.description.getD [])) <;>
        simp [h1, h2, h3, mem_add_category] <;> tauto

theorem mem_tag_field_day (e : Event) (c : List Char) :
    c ∈ (tag_field_day e).categories ↔ c ∈ e.categories ∨
      (c = "field-day".data ∧
        kwMatch FIELD_DAY_KEYWORDS (kw_blob e.title (e.description.getD []))) := by
  dsimp only [tag_field_day]
  by_cases h : kwMatch FIELD_DAY_KEYWORDS (kw_blob e.title (e.description.getD [])) <;>
    simp [h, mem_add_category]

theorem mem_classify (e : Event) (c : List Char) :
    c ∈ (classify e).categories ↔ c ∈ e.categories ∨
      (c = "cw".data ∧ kwMatch CW_KEYWORDS (kw_blob e.title (e.description.getD []))) ∨
      (c = "phone".data ∧ kwMatch PHONE_KEYWORDS (kw_blob e.title (e.description.getD []))) ∨
      (c = "digital".data ∧ kwMatch DIGITAL_KEYWORDS (kw_blob e.title (e.description.getD []))) ∨
      (c = "field-day".data ∧
        kwMatch FIELD_DAY_KEYWORDS (kw_blob e.title (e.description.getD []))) := by
  unfold classify
  rw [mem_tag_field_day, tag_modes_title, tag_modes_description, mem_tag_modes]
  tauto

theorem toUpper_space : Char.toUpper ' ' = ' ' := by decide

theorem upperChars_append (a b : List Char) :
    upperChars (a ++ b) = upperChars a ++ upperChars b := by
  simp [upperChars]

theorem kw_blob_eq (t d : List Char) :
    kw_blob t d = upperChars t ++ ' ' :: upperChars d := by
  simp [kw_blob, upperChars, toUpper_space]

theorem kw_blob_desc_ext (t d x : List Char) :
    kw_blob t (d ++ x) = kw_blob t d ++ upperChars x := by
  rw [kw_blob_eq, kw_blob_eq, upperChars_append]
  simp

theorem kwMatch_append (kws : List (List Char)) (blob u : List Char)
    (h : kwMatch kws blob = true) : kwMatch kws (blob ++ u) = true := by
  simp only [kwMatch, List.any_eq_true, decide_eq_true_eq] at h ⊢
  obtain ⟨k, hk, hinf⟩ := h
  exact ⟨k, hk, infix_append_left' u hinf⟩

theorem kwMatch_title_ext (kws : List (List Char)) (hsp : ∀ k ∈ kws, ' ' ∉ k)
    (t x d : List Char) (h : kwMatch kws (kw_blob t d) = true) :
    kwMatch kws (kw_blob (t ++ x) d) = true := by
  simp only [kwMatch, List.any_eq_true, decide_eq_true_eq] at h ⊢
  obtain ⟨k, hk, hinf⟩ := h
  refine ⟨k, hk, ?_⟩
  rw [kw_blob_eq] at hinf
  rw [kw_blob_eq, upperChars_append, List.append_assoc]
  rcases infix_append_cons_split (hsp k hk) hinf with h1 | h2
  · exact infix_append_left' _ h1
  · exact infix_append_right' _ (infix_append_right' _ (List.infix_cons h2))

/-- C5 (amended): the classifier depends on title/description only through
their upper-casing (so `"cw"` and `"CW"` both yield the cw label); labels
already present are never removed; extending the *description* can only add
labels; extending the *title* can only add labels as far as the mode labels
are concerned — the field-day label is excluded because its keyword
"FIELD DAY" can span the title/description boundary. -/
theorem c5_classifier_amended :
    (∀ (e e' : Event), upperChars e.title = upperChars e'.title →
        upperChars (e.description.getD []) = upperChars (e'.description.getD []) →
        e.categories = e'.categories →
        ∀ c, c ∈ (classify e).categories ↔ c ∈ (classify e').categories) ∧
    ("cw".data ∈ (classify ⟨"cw".data, 0, 0, none, none, [], []⟩).categories ∧
     "cw".data ∈ (classify ⟨"CW".data, 0, 0, none, none, [], []⟩).categories) ∧
    (∀ (e : Event) (c : List Char), c ∈ e.categories → c ∈ (classify e).categories) ∧
    (∀ (e : Event) (x c : List Char), c ∈ (classify e).categories →
        c ∈ (classify ⟨e.title, e.start, e.stop, e.url,
              some (e.description.getD [] ++ x), e.categories, e.source⟩).categories) ∧
    (∀ (e : Event) (x c : List Char), c ∈ (classify e).categories →
        c ≠ "field-day".data →
        c ∈ (classify ⟨e.title ++ x, e.start, e.stop, e.url, e.description,
              e.categories, e.source⟩).categories) := by
  refine ⟨?_, ⟨by decide, by decide⟩, ?_, ?_, ?_⟩
  · intro e e' ht hd hc c
    have hb : kw_blob e.title (e.description.getD []) =
        kw_blob e'.title (e'.description.getD []) := by
      rw [kw_blob_eq, kw_blob_eq, ht, hd]
    rw [mem_classify, mem_classify, hb, hc]
  · intro e c hce
    rw [mem_classify]
    exact Or.inl hce
  · intro e x c hce
    rw [mem_classify] at hce ⊢
    dsimp only [Option.getD_some]
    rw [kw_blob_desc_ext]
    rcases hce with h | ⟨hc1, hm⟩ | ⟨hc1, hm⟩ | ⟨hc1, hm⟩ | ⟨hc1, hm⟩
    · exact Or.inl h
    · exact Or.inr (Or.inl ⟨hc1, kwMatch_append _ _ _ hm⟩)
    · exact Or.inr (Or.inr (Or.inl ⟨hc1, kwMatch_append _ _ _ hm⟩))
    · exact Or.inr (Or.inr (Or.inr (Or.inl ⟨hc1, kwMatch_append _ _ _ hm⟩)))
    · exact Or.inr (Or.inr (Or.inr (Or.inr ⟨hc1, kwMatch_append _ _ _ hm⟩)))
  · intro e x c hce hcfd
    rw [mem_classify] at hce ⊢
    dsimp only
    rcases hce with h | ⟨hc1, hm⟩ | ⟨hc1, hm⟩ | ⟨hc1, hm⟩ | ⟨hc1, hm⟩
    · exact Or.inl h
    · exact Or.inr (Or.inl ⟨hc1, kwMatch_title_ext _ (by decide) _ _ _ hm⟩)
    · exact Or.inr (Or.inr (Or.inl ⟨hc1, kwMatch_title_ext _ (by decide) _ _ _ hm⟩))
    · exact Or.inr (Or.inr (Or.inr (Or.inl ⟨hc1, kwMatch_title_ext _ (by decide) _ _ _ hm⟩)))
    · exact absurd hc1 hcfd

/-- C5 witness: the cw label assigned to "CW contest" survives extending the
title, and a pre-existing label survives classification. -/
theorem c5_classifier_amended_witness :
    "cw".data ∈
      (classify ⟨"CW contest".data ++ " more".data, 0, 0, none, none, [], []⟩).categories :=
  c5_classifier_amended.2.2.2.2 ⟨"CW contest".data, 0, 0, none, none, [], []⟩
    (" more".data) ("cw".data) (by decide) (by decide)

/-- C5 (counterexample): extending the title *can* remove the field-day
label, because the keyword "FIELD DAY" may match across the title/description
boundary: title "FIELD" with description "DAY" is tagged field-day, but
extending the title to "FIELDX" removes that label. -/
theorem c5_classifier_counterexample :
    "field-day".data ∈
      (classify ⟨"FIELD".data, 0, 0, none, some ("DAY".data), [], []⟩).categories ∧
    "field-day".data ∉
      (classify ⟨"FIELDX".data, 0, 0, none, some ("DAY".data), [], []⟩).categories := by
  decide

/-- C1: `is_in_window e` holds iff `e.end > now` and `e.start < now + 62
days` (strict on both sides); an event ending exactly at `now` or starting
exactly at the horizon end is excluded. -/
theorem c1_window_membership (now : Int) (e : Event) :
    (is_in_window now e = true ↔ e.stop > now ∧ e.start < now + 62 * 86400) ∧
    (e.stop = now → is_in_window now e = false) ∧
    (e.start = now + 62 * 86400 → is_in_window now e = false) := by
  refine ⟨?_, ?_, ?_⟩ <;> simp [is_in_window] <;> omega

/-- C1 witness: boundary events at `now` and at the horizon end are excluded. -/
theorem c1_window_membership_witness :
    is_in_window 0 ⟨[], -5, 0, none, none, [], []⟩ = false ∧
    is_in_window 0 ⟨[], 62 * 86400, 99999999, none, none, [], []⟩ = false :=
  ⟨(c1_window_membership 0 ⟨[], -5, 0, none, none, [], []⟩).2.1 rfl,
   (c1_window_membership 0 ⟨[], 62 * 86400, 99999999, none, none, [], []⟩).2.2 rfl⟩

/-- C2: the dedup step keys on `(title, start.isoformat(), source)` with
last-write-wins: two events sharing that key but differing in `end` or `url`
collapse to the later-processed one. -/
theorem c2_dedup_last_write_wins (e1 e2 : Event)
    (hk : event_key e1 = event_key e2)
    (_hdiff : e1.stop ≠ e2.stop ∨ e1.url ≠ e2.url) :
    dedup [e1, e2] = [e2] ∧ (dedup [e1, e2]).length = 1 := by
  have h : dedup [e1, e2] = [e2] := by
    simp [dedup, upsert, hk]
  exact ⟨h, by rw [h]; rfl⟩

/-- C2 witness: two concrete events with the same title, start and source but
different ends collapse to the second. -/
theorem c2_dedup_last_write_wins_witness :
    dedup [⟨"A".data, 0, 10, none, none, [], "s".data⟩,
           ⟨"A".data, 0, 20, none, none, [], "s".data⟩]
      = [⟨"A".data, 0, 20, none, none, [], "s".data⟩] :=
  (c2_dedup_last_write_wins ⟨"A".data, 0, 10, none, none, [], "s".data⟩
    ⟨"A".data, 0, 20, none, none, [], "s".data⟩ rfl (Or.inl (by decide))).1

theorem add_category_start (e : Event) (c : List Char) :
    (add_category e c).start = e.start := by
  unfold add_category; split <;> rfl

theorem add_category_stop (e : Event) (c : List Char) :
    (add_category e c).stop = e.stop := by
  unfold add_category; split <;> rfl

theorem tag_field_day_start (e : Event) : (tag_field_day e).start = e.start := by
  dsimp only [tag_field_day]; split <;> simp [add_category_start]

theorem tag_field_day_stop (e : Event) : (tag_field_day e).stop = e.stop := by
  dsimp only [tag_field_day]; split <;> simp [add_category_stop]

theorem firstSatFrom_spec (fuel : Nat) (d : Int)
    (hex : ∃ j : Nat, j < fuel ∧ weekday (d + j) = 5) :
    weekday (firstSatFrom fuel d) = 5 ∧ d ≤ firstSatFrom fuel d ∧
      firstSatFrom fuel d < d + fuel ∧
      ∀ t, d ≤ t → t < firstSatFrom fuel d → weekday t ≠ 5 := by
  induction fuel generalizing d with
  | zero => obtain ⟨j, hj, _⟩ := hex; omega
  | succ n ih =>
    by_cases h5 : weekday d = 5
    · simp only [firstSatFrom, if_pos h5]
      exact ⟨h5, le_refl d, by omega, fun t ht1 ht2 => absurd ht2 (by omega)⟩
    · simp only [firstSatFrom, if_neg h5]
      have hex' : ∃ j : Nat, j < n ∧ weekday (d + 1 + j) = 5 := by
        obtain ⟨j, hj, hw⟩ := hex
        cases j with
        | zero => simp at hw; exact absurd hw h5
        | succ j' =>
          refine ⟨j', by omega, ?_⟩
          rw [show d + 1 + (j' : Int) = d + ((j' : Int) + 1) from by ring]
          simpa using hw
      obtain ⟨ha, hb, hc, hd⟩ := ih (d + 1) hex'
      refine ⟨ha, by omega, by push_cast at hc ⊢; omega, ?_⟩
      intro t ht1 ht2
      by_cases hte : t = d
      · subst hte; exact h5
      · exact hd t (by omega) ht2

theorem exists_saturday (d : Int) : ∃ j : Nat, j < 7 ∧ weekday (d + j) = 5 := by
  refine ⟨((5 - (d + 3) % 7 + 7) % 7).toNat, by omega, ?_⟩
  simp only [weekday]
  omega

/-- C6: the Field Day rule yields the Saturday exactly three weeks after the
first Saturday of June (the earliest Saturday on or after June 1), the
generated event spans two days from that Saturday's UTC midnight, and for
2024 the computed start date is June 22, 2024. -/
theorem c6_field_day_rule (y : Nat) :
    (weekday (firstSatFrom 7 (dateToDays y 6 1)) = 5 ∧
     dateToDays y 6 1 ≤ firstSatFrom 7 (dateToDays y 6 1) ∧
     (∀ t, dateToDays y 6 1 ≤ t → t < firstSatFrom 7 (dateToDays y 6 1) →
        weekday t ≠ 5) ∧
     fourth_full_weekend_saturday_of_june y =
       firstSatFrom 7 (dateToDays y 6 1) + 21) ∧
    ((field_day_event y).start = fourth_full_weekend_saturday_of_june y * 86400 ∧
     (field_day_event y).stop = (field_day_event y).start + 2 * 86400) ∧
    fourth_full_weekend_saturday_of_june 2024 = dateToDays 2024 6 22 := by
  obtain ⟨ha, hb, _, hd⟩ := firstSatFrom_spec 7 (dateToDays y 6 1)
    (exists_saturday (dateToDays y 6 1))
  refine ⟨⟨ha, hb, hd, rfl⟩, ⟨?_, ?_⟩, by decide⟩
  · dsimp only [field_day_event]
    rw [tag_field_day_start, add_category_start]
  · dsimp only [field_day_event]
    rw [tag_field_day_stop, add_category_stop, tag_field_day_start, add_category_start]

/-- C6 witness: June 3, 2026 lies before the first Saturday of June 2026 and
is not a Saturday; June 1, 2024 is itself a Saturday, so the 2024 start is
June 22, 2024. -/
theorem c6_field_day_rule_witness :
    weekday (dateToDays 2026 6 3) ≠ 5 ∧
    fourth_full_weekend_saturday_of_june 2024 = dateToDays 2024 6 22 :=
  ⟨(c6_field_day_rule 2026).1.2.2.1 (dateToDays 2026 6 3) (by decide) (by decide),
   (c6_field_day_rule 2024).2.2⟩

theorem tag_modes_start (e : Event) : (tag_modes e).start = e.start := by
  dsimp only [tag_modes]; split <;> split <;> split <;> simp [add_category_start]

theorem tag_modes_stop (e : Event) : (tag_modes e).stop = e.stop := by
  dsimp only [tag_modes]; split <;> split <;> split <;> simp [add_category_stop]

theorem tag_field_day_title (e : Event) : (tag_field_day e).title = e.title := by
  dsimp only [tag_field_day]; split <;> simp [add_category_title]

theorem classify_title (e : Event) : (classify e).title = e.title := by
  unfold classify; rw [tag_field_day_title, tag_modes_title]

theorem classify_start (e : Event) : (classify e).start = e.start := by
  unfold classify; rw [tag_field_day_start, tag_modes_start]

theorem classify_stop (e : Event) : (classify e).stop = e.stop := by
  unfold classify; rw [tag_field_day_stop, tag_modes_stop]

/-- C9: in the ICS-feed block parser, a block lacking `DTSTART` yields no
event (and no error); a block whose `SUMMARY` is absent yields an event
titled "Contest"; a block lacking `DTEND` yields an event ending one hour
after its start. -/
theorem c9_missing_field_defaults (b : List Char) :
    (extract_ics_field ("BEGIN:VEVENT".data ++ b) ("DTSTART".data) = none →
      processBlock b = .ok none) ∧
    (extract_ics_field ("BEGIN:VEVENT".data ++ b) ("SUMMARY".data) = none →
      ∀ e, processBlock b = .ok (some e) → e.title = "Contest".data) ∧
    (extract_ics_field ("BEGIN:VEVENT".data ++ b) ("DTEND".data) = none →
      ∀ e, processBlock b = .ok (some e) → e.stop = e.start + 3600) := by
  refine ⟨fun h1 => ?_, fun h2 e he => ?_, fun h3 e he => ?_⟩
  · dsimp only [processBlock]
    rw [h1]
  · dsimp only [processBlock] at he
    rw [h2] at he
    split at he
    · simp at he
    · simp at he
    · split at he
      · simp at he
      · split at he
        · simp at he
        · simp only [Except.ok.injEq, Option.some.injEq] at he
          subst he
          rw [classify_title, add_category_title]
          show unfold_ics_text ("Contest".data) = "Contest".data
          decide
  · dsimp only [processBlock] at he
    split at he
    · simp at he
    · simp at he
    · split at he
      · simp at he
      · rw [h3] at he
        dsimp only at he
        simp only [Except.ok.injEq, Option.some.injEq] at he
        subst he
        rw [classify_stop, add_category_stop, classify_start, add_category_start]

/-- C9 witness: a block with only a start date produces the event titled
"Contest" ending one hour after its start; a block with no start produces no
event and no error. -/
theorem c9_missing_field_defaults_witness :
    processBlock ("\r\nSUMMARY:Hi\r\nEND:VEVENT\r\n".data) = .ok none ∧
    (⟨"Contest".data, 1768435200, 1768438800, none, none, ["contest".data],
      "wa7bnm-gcal".data⟩ : Event).title = "Contest".data ∧
    (⟨"Contest".data, 1768435200, 1768438800, none, none, ["contest".data],
      "wa7bnm-gcal".data⟩ : Event).stop =
      (⟨"Contest".data, 1768435200, 1768438800, none, none, ["contest".data],
        "wa7bnm-gcal".data⟩ : Event).start + 3600 :=
  ⟨(c9_missing_field_defaults ("\r\nSUMMARY:Hi\r\nEND:VEVENT\r\n".data)).1 (by decide),
   (c9_missing_field_defaults ("\r\nDTSTART:20260115\r\nEND:VEVENT\r\n".data)).2.1
     (by decide) _ (by rfl),
   (c9_missing_field_defaults ("\r\nDTSTART:20260115\r\nEND:VEVENT\r\n".data)).2.2
     (by decide) _ (by rfl)⟩

/-- C3 (code bug): `build_ics` joins every line with CRLF and appends a
final CRLF, but never emits an `END:VCALENDAR` footer: for an empty event
list the output ends with the `X-WR-TIMEZONE:UTC` header line, and
`END:VCALENDAR` occurs nowhere in it. -/
theorem c3_missing_calendar_footer (now : Int) (uid : Event → List Char) :
    build_ics now uid ("X".data) [] =
      ("BEGIN:VCALENDAR\r\nVERSION:2.0\r\nPRODID:-//HAMCAL//hamcal//EN\r\nCALSCALE:GREGORIAN\r\nX-WR-CALNAME:X\r\nX-WR-TIMEZONE:UTC\r\n").data ∧
    ¬ ("END:VCALENDAR".data <:+:
        build_ics now uid ("X".data) []) := by
  have h : build_ics now uid ("X".data) [] =
      ("BEGIN:VCALENDAR\r\nVERSION:2.0\r\nPRODID:-//HAMCAL//hamcal//EN\r\nCALSCALE:GREGORIAN\r\nX-WR-CALNAME:X\r\nX-WR-TIMEZONE:UTC\r\n").data := rfl
  exact ⟨h, by rw [h]; decide⟩

/-- C8 (code bug): script and style content survives `strip_html`.  The
first two substitution patterns contain a doubled backslash inside a raw
string, so they demand a literal backslash in the input and never match real
markup; only the tags themselves are removed by the generic tag substitution
and the element content remains, and `<br>` yields no newline. -/
theorem c8_script_content_not_removed :
    strip_html ("<script>alert(1)</script>ok".data) = "alert(1)ok".data ∧
    "alert(1)".data <:+: strip_html ("<script>alert(1)</script>ok".data) ∧
    strip_html ("<style>body red</style>t".data) = "body redt".data ∧
    strip_html ("a<br>b".data) = "ab".data := by decide

end HamCal
